import Mathlib

/-!
# Graph assembly and layout subsystem: shallow embedding

This file embeds the graph layout and collapse logic of
`frontend/src/components/NetworkGraph.tsx` (functions
`layoutNodesWithClusters`, `createEdges`, `togglePoolCollapse`), and —
modelled from the specification, since the Python backend file
`backend/services/snowflake_service.py` is not part of the sources at
hand — the service reconciler (`get_services`) and the reference
validator inside `get_graph_data`.

Numbers: every coordinate computed by the layout is an exact small
integer (spacings are integers, and the only division is `clusterHeight / 2`
of an even non-negative quantity), so coordinates are embedded as `Int`.
Presentation-only payload (edge styling, the `__onToggleCollapse`
callback closure, entity attributes the layout merely copies through)
is omitted from the embedding; everything the layout reads or computes
is kept.
-/

/-- The four node kinds of the frontend graph (`GraphNode.type`). -/
inductive NType where
  | computePool
  | service
  | notebook
  | eai
deriving DecidableEq, Repr

/-- The part of a node's `data` payload that the layout reads: `name`
(read on compute-pool nodes) and `computePool` (read on service nodes).
All other entity attributes are copied through unchanged by the layout
and are not modelled. -/
structure NData where
  name : String
  computePool : String
deriving DecidableEq, Repr

/-- An input graph node (`GraphNode` of `frontend/src/types`). -/
structure GraphNode where
  id : String
  type : NType
  data : NData
deriving DecidableEq, Repr

/-- An input graph edge (`GraphEdge` of `frontend/src/types`). -/
structure GraphEdge where
  id : String
  source : String
  target : String
  label : Option String
deriving DecidableEq, Repr

/-- The assembled graph (`GraphData` of `frontend/src/types`). -/
structure GraphData where
  nodes : List GraphNode
  edges : List GraphEdge
deriving DecidableEq, Repr

/-- A node as emitted by `layoutNodesWithClusters`: position plus, for
compute-pool nodes, the `__collapsed` and `__serviceCount` view metadata
(`none` on non-pool nodes, which carry their data verbatim).  The
`__onToggleCollapse` callback closure is presentation wiring and is not
modelled. -/
structure PlacedNode where
  id : String
  type : NType
  x : Int
  y : Int
  data : NData
  collapsed : Option Bool
  serviceCount : Option Nat
deriving DecidableEq, Repr

/-- Result of `layoutNodesWithClusters`. -/
structure LayoutResult where
  nodes : List PlacedNode
  hiddenServiceIds : List String
deriving DecidableEq, Repr

/-- The React component state `collapsedPools : Record<string, boolean>`:
a partial map from pool id to a boolean; an absent key is `none`. -/
def CollapseMap : Type := String → Option Bool

/-- The initial collapse state, `useState({})`: the empty record. -/
def initialCollapseMap : CollapseMap := fun _ => none

/-- `collapsedPools[pool.id] ?? false`: lookup defaulting to `false`. -/
def lookupCollapsed (m : CollapseMap) (poolId : String) : Bool :=
  (m poolId).getD false

/-- `togglePoolCollapse`: `setCollapsedPools(prev => ({...prev, [poolId]: !prev[poolId]}))`.
In JS, `!prev[poolId]` on an absent key is `!undefined = true`. -/
def togglePoolCollapse (m : CollapseMap) (poolId : String) : CollapseMap :=
  fun q => if q = poolId then some (!(lookupCollapsed m poolId)) else m q

/-- The service-node group for a pool name: `servicesByPool.get(poolName)`,
which collects, in input order, exactly the service nodes whose
`computePool` attribute equals the name (`|| []` yields the empty list
when no group exists). -/
def servicesWithPool (g : GraphData) (poolName : String) : List GraphNode :=
  (g.nodes.filter (fun n => decide (n.type = NType.service))).filter
    (fun n => decide (n.data.computePool = poolName))

/-- `servicesByPool.get(poolData.name)?.length || 0`: the service count
used as the sort key for a compute-pool node. -/
def poolCount (g : GraphData) (p : GraphNode) : Nat :=
  (servicesWithPool g p.data.name).length

/-- The compute-pool nodes of the input, in input order. -/
def poolNodesOf (g : GraphData) : List GraphNode :=
  g.nodes.filter (fun n => decide (n.type = NType.computePool))

/-- The ordering induced by the sort comparator `(a, b) => bCount - aCount`:
`a` precedes `b` when `b`'s service count does not exceed `a`'s. -/
def poolGE (g : GraphData) (a b : GraphNode) : Prop :=
  poolCount g b ≤ poolCount g a

instance poolGE.decidableRel (g : GraphData) : DecidableRel (poolGE g) :=
  fun _ _ => Nat.decLe _ _

/-- `graphData.nodes.filter(computePool).sort((a, b) => bCount - aCount)`:
the JS engine's sort is stable and its output is ordered by the
comparator, which determines the result uniquely; it is embedded as a
stable sort (insertion sort) under that ordering. -/
def sortPools (g : GraphData) : List GraphNode :=
  (poolNodesOf g).insertionSort (poolGE g)

/-- `Math.max(80, visibleServiceCount * serviceYSpacing)` where the
visible count is `0` for a collapsed pool. -/
def clusterHeight (g : GraphData) (m : CollapseMap) (pool : GraphNode) : Int :=
  let visibleServiceCount : Int :=
    if lookupCollapsed m pool.id then 0 else (servicesWithPool g pool.data.name).length
  max 80 (visibleServiceCount * 70)

/-- `poolServices.forEach((service, idx) => ...)`: the expanded services
of one cluster, stacked at `serviceYSpacing = 70` from the cluster top. -/
def placeServices (currentY : Int) : Nat → List GraphNode → List PlacedNode
  | _, [] => []
  | idx, s :: ss =>
      { id := s.id, type := s.type, x := 400, y := currentY + (idx : Int) * 70,
        data := s.data, collapsed := none, serviceCount := none }
        :: placeServices currentY (idx + 1) ss

/-- The per-pool cluster pass of `layoutNodesWithClusters`: walks the
sorted pools with the running vertical cursor `currentY`, emitting the
pool node (vertically centred in its cluster) and, when expanded, its
service nodes; when collapsed, the pool's service ids go to the hidden
set instead.  The cursor advances by `clusterHeight + clusterSpacing`. -/
def placeClusters (g : GraphData) (m : CollapseMap) :
    List GraphNode → Int → List PlacedNode × List String
  | [], _ => ([], [])
  | pool :: rest, currentY =>
      let poolServices := servicesWithPool g pool.data.name
      let isCollapsed := lookupCollapsed m pool.id
      let ch := clusterHeight g m pool
      let poolY := currentY + (if 0 < ch then ch / 2 - 40 else 0)
      let poolNode : PlacedNode :=
        { id := pool.id, type := pool.type, x := 750, y := poolY,
          data := pool.data, collapsed := some isCollapsed,
          serviceCount := some poolServices.length }
      let svcNodes := if isCollapsed then [] else placeServices currentY 0 poolServices
      let newHidden := if isCollapsed then poolServices.map (fun s => s.id) else []
      let restResult := placeClusters g m rest (currentY + ch + 40)
      (poolNode :: (svcNodes ++ restResult.1), newHidden ++ restResult.2)

/-- A fixed independent column (notebooks at x = 0 with spacing 100,
EAIs at x = 1100 with spacing 80), stacked in input order from
`yOffset = 50`. -/
def columnNodes (x ySpacing : Int) : Nat → List GraphNode → List PlacedNode
  | _, [] => []
  | idx, n :: ns =>
      { id := n.id, type := n.type, x := x, y := 50 + (idx : Int) * ySpacing,
        data := n.data, collapsed := none, serviceCount := none }
        :: columnNodes x ySpacing (idx + 1) ns

/-- `layoutNodesWithClusters(graphData, collapsedPools, ...)`: clusters
first (pools sorted by descending service count, cursor starting at
`yOffset = 50`), then the notebook column, then the EAI column. -/
def layoutNodesWithClusters (g : GraphData) (m : CollapseMap) : LayoutResult :=
  let clusterResult := placeClusters g m (sortPools g) 50
  { nodes := clusterResult.1
      ++ columnNodes 0 100 0 (g.nodes.filter (fun n => decide (n.type = NType.notebook)))
      ++ columnNodes 1100 80 0 (g.nodes.filter (fun n => decide (n.type = NType.eai))),
    hiddenServiceIds := clusterResult.2 }

/-- `createEdges(graphData, hiddenServiceIds)`: keeps exactly the edges
neither of whose endpoints is a hidden service id (the emitted styling
constants are presentation-only and not modelled). -/
def createEdges (g : GraphData) (hiddenServiceIds : List String) : List GraphEdge :=
  g.edges.filter
    (fun e => !(hiddenServiceIds.contains e.source) && !(hiddenServiceIds.contains e.target))

/-! ## Spec-modelled backend components

The Python backend (`backend/services/snowflake_service.py`) is not
among the sources at hand; the service reconciler and the reference
validator below are modelled from the specification and the feature
document. -/

/-- A raw service record as the reconciler sees it: its fully qualified
name (the dictionary key) and its compute-pool attribution. -/
structure RSvc where
  key : String
  pool : String
deriving DecidableEq, Repr

/-- Modelled from the spec: one insertion into the `services_map`
dictionary of the backend `get_services` (missing from the sources at
hand), keyed by fully qualified service name — an existing entry with
the same key is overwritten in place, otherwise the record is appended. -/
def upsert (m : List RSvc) (s : RSvc) : List RSvc :=
  if m.any (fun t => t.key == s.key) then
    m.map (fun t => if t.key = s.key then s else t)
  else m ++ [s]

/-- Modelled from the spec: the backend `get_services` reconciliation
(missing from the sources at hand) — baseline entries are inserted
first, then each compute pool's pool-scoped entries are inserted in
order, overwriting any existing entry with the same key. -/
def reconcile (baseline : List RSvc) (poolLists : List (List RSvc)) : List RSvc :=
  poolLists.foldl (fun m p => p.foldl upsert m) (baseline.foldl upsert [])

/-- The keys of a reconciled map, in entry order. -/
def rkeys (m : List RSvc) : List String := m.map (fun s => s.key)

/-- Lookup in a reconciled map: the first entry with the given key. -/
def rlookup (k : String) (m : List RSvc) : Option RSvc :=
  m.find? (fun s => s.key == k)

/-- The last record with key `k` in a list of records, if any. -/
def lastWithKey (k : String) (l : List RSvc) : Option RSvc :=
  l.foldl (fun acc s => if s.key = k then some s else acc) none

/-- The record for key `k` supplied by the pool-scoped lists, from the
last pool list (and last occurrence within it) that supplies it. -/
def lastSupplied (k : String) (poolLists : List (List RSvc)) : Option RSvc :=
  lastWithKey k poolLists.flatten

/-- Modelled from the spec: the reference validator inside the backend
`get_graph_data` (missing from the sources at hand) — an edge is kept
exactly when both its endpoints are ids of candidate nodes. -/
def validateEdges (nodeIds : List String) (candidates : List GraphEdge) : List GraphEdge :=
  candidates.filter (fun e => nodeIds.contains e.source && nodeIds.contains e.target)

/-- Modelled from the spec: the emitted graph of the backend
`get_graph_data` (missing from the sources at hand) — the candidate
nodes together with the validated edges. -/
def buildGraph (candidateNodes : List GraphNode) (candidateEdges : List GraphEdge) : GraphData :=
  { nodes := candidateNodes,
    edges := validateEdges (candidateNodes.map (fun n => n.id)) candidateEdges }

/-! ## Helper lemmas -/

theorem lookupCollapsed_toggle_self (m : CollapseMap) (p : String) :
    lookupCollapsed (togglePoolCollapse m p) p = !(lookupCollapsed m p) := by
  simp [lookupCollapsed, togglePoolCollapse]

theorem lookupCollapsed_toggle_other (m : CollapseMap) (p q : String) (h : q ≠ p) :
    lookupCollapsed (togglePoolCollapse m p) q = lookupCollapsed m q := by
  simp [lookupCollapsed, togglePoolCollapse, h]

theorem lookupCollapsed_toggle_toggle (m : CollapseMap) (p q : String) :
    lookupCollapsed (togglePoolCollapse (togglePoolCollapse m p) p) q
      = lookupCollapsed m q := by
  by_cases h : q = p
  · subst h
    rw [lookupCollapsed_toggle_self, lookupCollapsed_toggle_self, Bool.not_not]
  · rw [lookupCollapsed_toggle_other _ _ _ h, lookupCollapsed_toggle_other _ _ _ h]

theorem clusterHeight_congr (g : GraphData) (m₁ m₂ : CollapseMap)
    (h : ∀ q, lookupCollapsed m₁ q = lookupCollapsed m₂ q) (p : GraphNode) :
    clusterHeight g m₁ p = clusterHeight g m₂ p := by
  simp only [clusterHeight, h]

theorem placeClusters_congr (g : GraphData) (m₁ m₂ : CollapseMap)
    (h : ∀ q, lookupCollapsed m₁ q = lookupCollapsed m₂ q) :
    ∀ (ps : List GraphNode) (y : Int),
      placeClusters g m₁ ps y = placeClusters g m₂ ps y := by
  intro ps
  induction ps with
  | nil => intro y; rfl
  | cons p rest ih =>
      intro y
      simp only [placeClusters, h, clusterHeight_congr g m₁ m₂ h, ih]

theorem layout_congr (g : GraphData) (m₁ m₂ : CollapseMap)
    (h : ∀ q, lookupCollapsed m₁ q = lookupCollapsed m₂ q) :
    layoutNodesWithClusters g m₁ = layoutNodesWithClusters g m₂ := by
  simp only [layoutNodesWithClusters, placeClusters_congr g m₁ m₂ h]

theorem mem_servicesWithPool {g : GraphData} {name : String} {s : GraphNode} :
    s ∈ servicesWithPool g name ↔
      s ∈ g.nodes ∧ s.type = NType.service ∧ s.data.computePool = name := by
  constructor
  · intro h
    have h1 := List.mem_filter.mp h
    have h2 := List.mem_filter.mp h1.1
    exact ⟨h2.1, of_decide_eq_true h2.2, of_decide_eq_true h1.2⟩
  · intro h
    exact List.mem_filter.mpr
      ⟨List.mem_filter.mpr ⟨h.1, decide_eq_true h.2.1⟩, decide_eq_true h.2.2⟩

theorem mem_poolNodesOf {g : GraphData} {p : GraphNode} :
    p ∈ poolNodesOf g ↔ p ∈ g.nodes ∧ p.type = NType.computePool := by
  simp [poolNodesOf, List.mem_filter]

theorem mem_sortPools {g : GraphData} {p : GraphNode} :
    p ∈ sortPools g ↔ p ∈ poolNodesOf g := by
  unfold sortPools
  exact (List.perm_insertionSort (poolGE g) (poolNodesOf g)).mem_iff

theorem placeServices_map_id (y : Int) :
    ∀ (i : Nat) (l : List GraphNode),
      (placeServices y i l).map (fun n => n.id) = l.map (fun n => n.id) := by
  intro i l
  induction l generalizing i with
  | nil => rfl
  | cons s ss ih => simp [placeServices, ih]

theorem columnNodes_map_id (x ySpacing : Int) :
    ∀ (i : Nat) (l : List GraphNode),
      (columnNodes x ySpacing i l).map (fun n => n.id) = l.map (fun n => n.id) := by
  intro i l
  induction l generalizing i with
  | nil => rfl
  | cons n ns ih => simp [columnNodes, ih]

theorem mem_placeServices {y : Int} {i : Nat} {l : List GraphNode} {pn : PlacedNode} :
    pn ∈ placeServices y i l → ∃ s ∈ l, pn.id = s.id ∧ pn.type = s.type := by
  induction l generalizing i with
  | nil => intro h; cases h
  | cons s ss ih =>
      intro h
      simp only [placeServices, List.mem_cons] at h
      rcases h with h | h
      · exact ⟨s, List.mem_cons_self s ss, by rw [h], by rw [h]⟩
      · obtain ⟨t, ht, h1, h2⟩ := ih h
        exact ⟨t, List.mem_cons_of_mem s ht, h1, h2⟩

theorem placeServices_mem_of_mem {y : Int} {l : List GraphNode} {s : GraphNode} :
    ∀ i : Nat, s ∈ l → ∃ pn ∈ placeServices y i l, pn.id = s.id ∧ pn.type = s.type := by
  induction l with
  | nil => intro i h; cases h
  | cons t ts ih =>
      intro i h
      rcases List.mem_cons.mp h with h | h
      · subst h
        exact ⟨_, List.mem_cons_self _ _, rfl, rfl⟩
      · obtain ⟨pn, hpn, h1, h2⟩ := ih (i + 1) h
        exact ⟨pn, List.mem_cons_of_mem _ hpn, h1, h2⟩

theorem mem_columnNodes {x ySpacing : Int} {i : Nat} {l : List GraphNode} {pn : PlacedNode} :
    pn ∈ columnNodes x ySpacing i l → ∃ n ∈ l, pn.id = n.id ∧ pn.type = n.type := by
  induction l generalizing i with
  | nil => intro h; cases h
  | cons n ns ih =>
      intro h
      simp only [columnNodes, List.mem_cons] at h
      rcases h with h | h
      · exact ⟨n, List.mem_cons_self n ns, by rw [h], by rw [h]⟩
      · obtain ⟨t, ht, h1, h2⟩ := ih h
        exact ⟨t, List.mem_cons_of_mem n ht, h1, h2⟩

theorem mem_placeClusters_snd {g : GraphData} {m : CollapseMap} {x : String} :
    ∀ {ps : List GraphNode} {y : Int},
      x ∈ (placeClusters g m ps y).2 ↔
        ∃ p ∈ ps, lookupCollapsed m p.id = true ∧
          x ∈ (servicesWithPool g p.data.name).map (fun s => s.id) := by
  intro ps
  induction ps with
  | nil => intro y; simp [placeClusters]
  | cons p rest ih =>
      intro y
      simp only [placeClusters, List.mem_append]
      constructor
      · intro h
        rcases h with h | h
        · by_cases hc : lookupCollapsed m p.id
          · exact ⟨p, List.mem_cons_self p rest, hc, by simpa [hc] using h⟩
          · simp [hc] at h
        · obtain ⟨q, hq, h1, h2⟩ := ih.mp h
          exact ⟨q, List.mem_cons_of_mem p hq, h1, h2⟩
      · rintro ⟨q, hq, h1, h2⟩
        rcases List.mem_cons.mp hq with hq | hq
        · subst hq
          left
          simpa [h1] using h2
        · right
          exact ih.mpr ⟨q, hq, h1, h2⟩

/-- The id sequence of the cluster pass, independent of the cursor. -/
def clusterIds (g : GraphData) (m : CollapseMap) : List GraphNode → List String
  | [] => []
  | p :: rest =>
      p.id ::
        ((if lookupCollapsed m p.id then []
          else (servicesWithPool g p.data.name).map (fun s => s.id))
          ++ clusterIds g m rest)

theorem placeClusters_fst_map_id (g : GraphData) (m : CollapseMap) :
    ∀ (ps : List GraphNode) (y : Int),
      ((placeClusters g m ps y).1).map (fun n => n.id) = clusterIds g m ps := by
  intro ps
  induction ps with
  | nil => intro y; rfl
  | cons p rest ih =>
      intro y
      by_cases hc : lookupCollapsed m p.id
      · simp [placeClusters, clusterIds, hc, ih]
      · simp [placeClusters, clusterIds, hc, ih, placeServices_map_id]

theorem mem_placeClusters_fst {g : GraphData} {m : CollapseMap} {pn : PlacedNode} :
    ∀ {ps : List GraphNode} {y : Int},
      pn ∈ (placeClusters g m ps y).1 →
        (∃ p ∈ ps, pn.id = p.id ∧ pn.type = p.type) ∨
        (∃ q ∈ ps, ∃ t ∈ servicesWithPool g q.data.name, pn.id = t.id ∧ pn.type = t.type) := by
  intro ps
  induction ps with
  | nil => intro y h; cases h
  | cons p rest ih =>
      intro y h
      simp only [placeClusters, List.mem_cons, List.mem_append] at h
      rcases h with h | h | h
      · left
        exact ⟨p, List.mem_cons_self p rest, by rw [h], by rw [h]⟩
      · right
        by_cases hc : lookupCollapsed m p.id
        · simp [hc] at h
        · simp only [hc, if_neg, Bool.false_eq_true] at h
          obtain ⟨t, ht, h1, h2⟩ := mem_placeServices (by simpa using h)
          exact ⟨p, List.mem_cons_self p rest, t, ht, h1, h2⟩
      · rcases ih h with ⟨q, hq, h1, h2⟩ | ⟨q, hq, t, ht, h1, h2⟩
        · exact Or.inl ⟨q, List.mem_cons_of_mem p hq, h1, h2⟩
        · exact Or.inr ⟨q, List.mem_cons_of_mem p hq, t, ht, h1, h2⟩

theorem placeClusters_pool_mem {g : GraphData} {m : CollapseMap} {p : GraphNode} :
    ∀ {ps : List GraphNode} {y : Int}, p ∈ ps →
      ∃ pn ∈ (placeClusters g m ps y).1,
        pn.id = p.id ∧ pn.type = p.type ∧
        pn.collapsed = some (lookupCollapsed m p.id) ∧
        pn.serviceCount = some (servicesWithPool g p.data.name).length := by
  intro ps
  induction ps with
  | nil => intro y h; cases h
  | cons q rest ih =>
      intro y h
      rcases List.mem_cons.mp h with h | h
      · subst h
        refine ⟨_, List.mem_cons_self _ _, rfl, rfl, rfl, rfl⟩
      · obtain ⟨pn, hpn, hrest⟩ := ih (y := y + clusterHeight g m q + 40) h
        refine ⟨pn, ?_, hrest⟩
        simp only [placeClusters, List.mem_cons, List.mem_append]
        exact Or.inr (Or.inr hpn)

theorem placeClusters_service_mem {g : GraphData} {m : CollapseMap} {p s : GraphNode} :
    ∀ {ps : List GraphNode} {y : Int}, p ∈ ps →
      lookupCollapsed m p.id = false →
      s ∈ servicesWithPool g p.data.name →
      ∃ sn ∈ (placeClusters g m ps y).1, sn.id = s.id ∧ sn.type = s.type := by
  intro ps
  induction ps with
  | nil => intro y h; cases h
  | cons q rest ih =>
      intro y h hc hs
      rcases List.mem_cons.mp h with h | h
      · subst h
        obtain ⟨sn, hsn, h1, h2⟩ := placeServices_mem_of_mem (y := y) 0 hs
        refine ⟨sn, ?_, h1, h2⟩
        simp only [placeClusters, List.mem_cons, List.mem_append, hc]
        exact Or.inr (Or.inl (by simpa using hsn))
      · obtain ⟨sn, hsn, h1, h2⟩ := ih (y := y + clusterHeight g m q + 40) h hc hs
        refine ⟨sn, ?_, h1, h2⟩
        simp only [placeClusters, List.mem_cons, List.mem_append]
        exact Or.inr (Or.inr hsn)

theorem clusterHeight_ge (g : GraphData) (m : CollapseMap) (p : GraphNode) :
    80 ≤ clusterHeight g m p :=
  le_max_left _ _

/-- The pool nodes emitted by the cluster pass, with their cursor positions. -/
def clusterPoolPlaced (g : GraphData) (m : CollapseMap) : List GraphNode → Int → List PlacedNode
  | [], _ => []
  | p :: rest, y =>
      { id := p.id, type := p.type, x := 750,
        y := y + (if 0 < clusterHeight g m p then clusterHeight g m p / 2 - 40 else 0),
        data := p.data, collapsed := some (lookupCollapsed m p.id),
        serviceCount := some (servicesWithPool g p.data.name).length }
        :: clusterPoolPlaced g m rest (y + clusterHeight g m p + 40)

theorem placeServices_filter_pool {y : Int} :
    ∀ {i : Nat} {l : List GraphNode}, (∀ s ∈ l, s.type = NType.service) →
      (placeServices y i l).filter (fun n => decide (n.type = NType.computePool)) = [] := by
  intro i l
  induction l generalizing i with
  | nil => intro _; rfl
  | cons s ss ih =>
      intro h
      have hs := h s (List.mem_cons_self s ss)
      simp only [placeServices, List.filter_cons, hs]
      simpa using ih (fun t ht => h t (List.mem_cons_of_mem s ht))

theorem placeClusters_filter_pool (g : GraphData) (m : CollapseMap) :
    ∀ {ps : List GraphNode} {y : Int}, (∀ p ∈ ps, p.type = NType.computePool) →
      ((placeClusters g m ps y).1).filter (fun n => decide (n.type = NType.computePool))
        = clusterPoolPlaced g m ps y := by
  intro ps
  induction ps with
  | nil => intro y _; rfl
  | cons p rest ih =>
      intro y h
      have hp := h p (List.mem_cons_self p rest)
      have hsvc : ((if lookupCollapsed m p.id then []
          else placeServices y 0 (servicesWithPool g p.data.name)) : List PlacedNode).filter
            (fun n => decide (n.type = NType.computePool)) = [] := by
        by_cases hc : lookupCollapsed m p.id
        · simp [hc]
        · simp only [hc, Bool.false_eq_true, if_false]
          exact placeServices_filter_pool
            (fun s hs => (mem_servicesWithPool.mp hs).2.1)
      simp only [placeClusters, clusterPoolPlaced, List.filter_cons, List.filter_append, hsvc,
        hp, decide_eq_true_eq, List.nil_append]
      rw [if_pos trivial]
      exact congrArg _ (ih (fun q hq => h q (List.mem_cons_of_mem p hq)))

theorem columnNodes_filter_pool {x ySpacing : Int} {t : NType} (ht : t ≠ NType.computePool) :
    ∀ {i : Nat} {l : List GraphNode}, (∀ n ∈ l, n.type = t) →
      (columnNodes x ySpacing i l).filter (fun n => decide (n.type = NType.computePool)) = [] := by
  intro i l
  induction l generalizing i with
  | nil => intro _; rfl
  | cons n ns ih =>
      intro h
      have hn := h n (List.mem_cons_self n ns)
      simp only [columnNodes, List.filter_cons, hn, decide_eq_true_eq, if_neg ht]
      exact ih (fun m hm => h m (List.mem_cons_of_mem n hm))

/-- The pool nodes of the final layout, in emission order. -/
theorem layout_filter_pool (g : GraphData) (m : CollapseMap) :
    ((layoutNodesWithClusters g m).nodes).filter (fun n => decide (n.type = NType.computePool))
      = clusterPoolPlaced g m (sortPools g) 50 := by
  have hpools : ∀ p ∈ sortPools g, p.type = NType.computePool := by
    intro p hp
    exact (mem_poolNodesOf.mp (mem_sortPools.mp hp)).2
  have hnb : ∀ n ∈ g.nodes.filter (fun n => decide (n.type = NType.notebook)),
      n.type = NType.notebook := by
    intro n hn
    exact of_decide_eq_true (List.mem_filter.mp hn).2
  have hea : ∀ n ∈ g.nodes.filter (fun n => decide (n.type = NType.eai)),
      n.type = NType.eai := by
    intro n hn
    exact of_decide_eq_true (List.mem_filter.mp hn).2
  simp only [layoutNodesWithClusters, List.filter_append]
  rw [placeClusters_filter_pool g m hpools,
    columnNodes_filter_pool (by intro h; cases h) hnb,
    columnNodes_filter_pool (by intro h; cases h) hea,
    List.append_nil, List.append_nil]

theorem clusterPoolPlaced_map_id (g : GraphData) (m : CollapseMap) :
    ∀ (ps : List GraphNode) (y : Int),
      (clusterPoolPlaced g m ps y).map (fun n => n.id) = ps.map (fun p => p.id) := by
  intro ps
  induction ps with
  | nil => intro y; rfl
  | cons p rest ih => intro y; simp [clusterPoolPlaced, ih]

theorem clusterPoolPlaced_map_count (g : GraphData) (m : CollapseMap) :
    ∀ (ps : List GraphNode) (y : Int),
      (clusterPoolPlaced g m ps y).map (fun n => n.serviceCount)
        = ps.map (fun p => some (poolCount g p)) := by
  intro ps
  induction ps with
  | nil => intro y; rfl
  | cons p rest ih => intro y; simp [clusterPoolPlaced, ih, poolCount]

theorem clusterPoolPlaced_head_y (g : GraphData) (m : CollapseMap) (p : GraphNode)
    (ps : List GraphNode) (y : Int) :
    ∃ b, (clusterPoolPlaced g m (p :: ps) y).head? = some b ∧
      b.y = y + clusterHeight g m p / 2 - 40 ∧
      b.serviceCount = some (poolCount g p) := by
  have hch : 0 < clusterHeight g m p := lt_of_lt_of_le (by norm_num) (clusterHeight_ge g m p)
  refine ⟨_, rfl, ?_, rfl⟩
  simp only [if_pos hch]
  ring

theorem clusterPoolPlaced_chainY (g : GraphData) (m : CollapseMap) :
    ∀ (ps : List GraphNode) (y : Int),
      List.Chain' (fun a b => a.y + 120 ≤ b.y) (clusterPoolPlaced g m ps y) := by
  intro ps
  induction ps with
  | nil => intro y; simp [clusterPoolPlaced]
  | cons p rest ih =>
      intro y
      rw [clusterPoolPlaced, List.chain'_cons']
      refine ⟨?_, ih _⟩
      intro b hb
      cases rest with
      | nil => simp [clusterPoolPlaced] at hb
      | cons q qs =>
          obtain ⟨b0, hb0, hby, _⟩ := clusterPoolPlaced_head_y g m q qs (y + clusterHeight g m p + 40)
          rw [hb0] at hb
          cases hb
          have h1 : 80 ≤ clusterHeight g m p := clusterHeight_ge g m p
          have h2 : 80 ≤ clusterHeight g m q := clusterHeight_ge g m q
          have hch : 0 < clusterHeight g m p := by omega
          simp only [if_pos hch, hby]
          omega

theorem clusterPoolPlaced_chain_count (g : GraphData) (m : CollapseMap) :
    ∀ {ps : List GraphNode} {y : Int}, List.Sorted (poolGE g) ps →
      List.Chain' (fun a b => a.y < b.y ∧ b.serviceCount.getD 0 ≤ a.serviceCount.getD 0)
        (clusterPoolPlaced g m ps y) := by
  intro ps
  induction ps with
  | nil => intro y _; simp [clusterPoolPlaced]
  | cons p rest ih =>
      intro y hs
      rw [clusterPoolPlaced, List.chain'_cons']
      refine ⟨?_, ih hs.of_cons⟩
      intro b hb
      cases rest with
      | nil => simp [clusterPoolPlaced] at hb
      | cons q qs =>
          obtain ⟨b0, hb0, hby, hbc⟩ := clusterPoolPlaced_head_y g m q qs (y + clusterHeight g m p + 40)
          rw [hb0] at hb
          cases hb
          have h1 : 80 ≤ clusterHeight g m p := clusterHeight_ge g m p
          have h2 : 80 ≤ clusterHeight g m q := clusterHeight_ge g m q
          have hch : 0 < clusterHeight g m p := by omega
          have hcount : poolCount g q ≤ poolCount g p :=
            List.rel_of_sorted_cons hs q (List.mem_cons_self q qs)
          constructor
          · simp only [if_pos hch, hby]
            omega
          · simp only [hbc, Option.getD_some, poolCount]
            exact hcount

instance poolGE.isTotal (g : GraphData) : IsTotal GraphNode (poolGE g) :=
  ⟨fun a b => (le_total (poolCount g b) (poolCount g a)).imp id id⟩

instance poolGE.isTrans (g : GraphData) : IsTrans GraphNode (poolGE g) :=
  ⟨fun _ _ _ h1 h2 => le_trans h2 h1⟩

theorem sortPools_sorted (g : GraphData) : List.Sorted (poolGE g) (sortPools g) :=
  List.sorted_insertionSort (poolGE g) (poolNodesOf g)

theorem sortPools_stable (g : GraphData) (k : Nat) :
    (sortPools g).filter (fun p => poolCount g p == k)
      = (poolNodesOf g).filter (fun p => poolCount g p == k) := by
  set pred : GraphNode → Bool := fun p => poolCount g p == k with hpred
  have hpair : ((poolNodesOf g).filter pred).Pairwise (poolGE g) := by
    apply List.pairwise_of_forall_mem_list
    intro a ha b hb
    have ha2 : poolCount g a = k := by
      have := (List.mem_filter.mp ha).2
      simpa [hpred] using this
    have hb2 : poolCount g b = k := by
      have := (List.mem_filter.mp hb).2
      simpa [hpred] using this
    unfold poolGE
    omega
  have h1 : ((poolNodesOf g).filter pred).Sublist (sortPools g) :=
    List.sublist_insertionSort hpair (List.filter_sublist _)
  have h2 : ((poolNodesOf g).filter pred).filter pred = (poolNodesOf g).filter pred :=
    List.filter_eq_self.mpr fun a ha => (List.mem_filter.mp ha).2
  have h3 : ((poolNodesOf g).filter pred).Sublist ((sortPools g).filter pred) := by
    have := h1.filter pred
    rwa [h2] at this
  have h4 : ((sortPools g).filter pred).length = ((poolNodesOf g).filter pred).length :=
    ((List.perm_insertionSort (poolGE g) (poolNodesOf g)).filter pred).length_eq
  exact (h3.eq_of_length h4.symm).symm

theorem node_id_inj {g : GraphData} (hids : (g.nodes.map (fun n => n.id)).Nodup)
    {a b : GraphNode} (ha : a ∈ g.nodes) (hb : b ∈ g.nodes) (h : a.id = b.id) : a = b :=
  List.inj_on_of_nodup_map hids ha hb h

theorem pool_name_inj {g : GraphData}
    (hnames : ((poolNodesOf g).map (fun n => n.data.name)).Nodup)
    {a b : GraphNode} (ha : a ∈ poolNodesOf g) (hb : b ∈ poolNodesOf g)
    (h : a.data.name = b.data.name) : a = b :=
  List.inj_on_of_nodup_map hnames ha hb h

/-! ## Claim theorems -/

/-- C2: the layout is a deterministic pure function of the pair
(graph data, collapse-state map): two runs on identical graph data and
identical collapse maps produce identical placed nodes (hence identical
2-D coordinates for every node) and identical filtered edge sets. -/
theorem layout_deterministic (g₁ g₂ : GraphData) (m₁ m₂ : CollapseMap)
    (hg : g₁ = g₂) (hm : m₁ = m₂) :
    layoutNodesWithClusters g₁ m₁ = layoutNodesWithClusters g₂ m₂ ∧
    createEdges g₁ (layoutNodesWithClusters g₁ m₁).hiddenServiceIds
      = createEdges g₂ (layoutNodesWithClusters g₂ m₂).hiddenServiceIds := by
  subst hg
  subst hm
  exact ⟨rfl, rfl⟩

def gC2 : GraphData :=
  { nodes := [
      { id := "P1", type := NType.computePool, data := { name := "P1", computePool := "" } },
      { id := "D.S.SVC", type := NType.service, data := { name := "SVC", computePool := "P1" } } ],
    edges := [ { id := "e1", source := "D.S.SVC", target := "P1", label := some "runs on" } ] }

theorem layout_deterministic_witness :
    gC2 = gC2 ∧ initialCollapseMap = initialCollapseMap ∧
    (layoutNodesWithClusters gC2 initialCollapseMap
        = layoutNodesWithClusters gC2 initialCollapseMap ∧
      createEdges gC2 (layoutNodesWithClusters gC2 initialCollapseMap).hiddenServiceIds
        = createEdges gC2 (layoutNodesWithClusters gC2 initialCollapseMap).hiddenServiceIds) :=
  ⟨rfl, rfl, layout_deterministic gC2 gC2 initialCollapseMap initialCollapseMap rfl rfl⟩

/-- C7: toggling the collapse state of any pool id twice in succession
returns the layout (node positions, metadata and hidden set) and the
filtered edge set to exactly what they were before the first toggle. -/
theorem toggle_twice_restores (g : GraphData) (m : CollapseMap) (poolId : String) :
    layoutNodesWithClusters g (togglePoolCollapse (togglePoolCollapse m poolId) poolId)
      = layoutNodesWithClusters g m ∧
    createEdges g (layoutNodesWithClusters g
        (togglePoolCollapse (togglePoolCollapse m poolId) poolId)).hiddenServiceIds
      = createEdges g (layoutNodesWithClusters g m).hiddenServiceIds := by
  have h := layout_congr g _ m (lookupCollapsed_toggle_toggle m poolId)
  exact ⟨h, by rw [h]⟩

/-- C8: a pool id absent from the collapse-state map is treated as
expanded: the initial map is empty (every id reads back `false`), the
pool's emitted node carries `collapsed = false`, and every one of its
services is positioned in the output. -/
theorem absent_pool_expanded (g : GraphData) (m : CollapseMap) (p : GraphNode)
    (hp : p ∈ g.nodes) (hpt : p.type = NType.computePool) (habs : m p.id = none) :
    lookupCollapsed m p.id = false ∧
    (∀ q, lookupCollapsed initialCollapseMap q = false) ∧
    (∃ pn ∈ (layoutNodesWithClusters g m).nodes,
        pn.id = p.id ∧ pn.type = NType.computePool ∧ pn.collapsed = some false) ∧
    (∀ s ∈ servicesWithPool g p.data.name,
        ∃ sn ∈ (layoutNodesWithClusters g m).nodes, sn.id = s.id ∧ sn.type = NType.service) := by
  have hexp : lookupCollapsed m p.id = false := by
    simp [lookupCollapsed, habs]
  have hps : p ∈ sortPools g := mem_sortPools.mpr (mem_poolNodesOf.mpr ⟨hp, hpt⟩)
  refine ⟨hexp, fun q => rfl, ?_, ?_⟩
  · obtain ⟨pn, hpn, h1, h2, h3, _⟩ := placeClusters_pool_mem (y := 50) hps
    refine ⟨pn, ?_, h1, h2.trans hpt, by rw [h3, hexp]⟩
    simp only [layoutNodesWithClusters]
    exact List.mem_append_left _ (List.mem_append_left _ hpn)
  · intro s hs
    obtain ⟨sn, hsn, h1, h2⟩ := placeClusters_service_mem (y := 50) hps hexp hs
    have hst : s.type = NType.service := (mem_servicesWithPool.mp hs).2.1
    refine ⟨sn, ?_, h1, h2.trans hst⟩
    simp only [layoutNodesWithClusters]
    exact List.mem_append_left _ (List.mem_append_left _ hsn)

def gC8 : GraphData :=
  { nodes := [
      { id := "P1", type := NType.computePool, data := { name := "P1", computePool := "" } },
      { id := "D.S.SVC", type := NType.service, data := { name := "SVC", computePool := "P1" } } ],
    edges := [] }

def pC8 : GraphNode :=
  { id := "P1", type := NType.computePool, data := { name := "P1", computePool := "" } }

theorem absent_pool_expanded_witness :
    pC8 ∈ gC8.nodes ∧ pC8.type = NType.computePool ∧ initialCollapseMap pC8.id = none ∧
    (lookupCollapsed initialCollapseMap pC8.id = false ∧
      (∀ q, lookupCollapsed initialCollapseMap q = false) ∧
      (∃ pn ∈ (layoutNodesWithClusters gC8 initialCollapseMap).nodes,
          pn.id = pC8.id ∧ pn.type = NType.computePool ∧ pn.collapsed = some false) ∧
      (∀ s ∈ servicesWithPool gC8 pC8.data.name,
          ∃ sn ∈ (layoutNodesWithClusters gC8 initialCollapseMap).nodes,
            sn.id = s.id ∧ sn.type = NType.service)) :=
  ⟨by decide, by decide, rfl,
    absent_pool_expanded gC8 initialCollapseMap pC8 (by decide) (by decide) rfl⟩

/-- C10: vertical spans of distinct compute-pool clusters are pairwise
disjoint: every cluster height is at least the floor of 80 regardless of
collapse state, the cursor advance per pool (height plus the fixed gap
of 40) is at least 120, consecutive pool nodes are at least 120 apart
vertically, and no two pool nodes share a y coordinate. -/
theorem pool_clusters_disjoint (g : GraphData) (m : CollapseMap) :
    (∀ p : GraphNode, 80 ≤ clusterHeight g m p ∧ 120 ≤ clusterHeight g m p + 40) ∧
    List.Chain' (fun a b => a.y + 120 ≤ b.y)
      (((layoutNodesWithClusters g m).nodes).filter
        (fun n => decide (n.type = NType.computePool))) ∧
    List.Pairwise (fun a b => a.y ≠ b.y)
      (((layoutNodesWithClusters g m).nodes).filter
        (fun n => decide (n.type = NType.computePool))) := by
  have hch := clusterPoolPlaced_chainY g m (sortPools g) 50
  rw [layout_filter_pool g m]
  refine ⟨fun p => ⟨clusterHeight_ge g m p, ?_⟩, hch, ?_⟩
  · have := clusterHeight_ge g m p
    omega
  · haveI : IsTrans PlacedNode (fun a b => a.y + 120 ≤ b.y) :=
      ⟨fun a b c h1 h2 => by omega⟩
    have hpw : List.Pairwise (fun (a b : PlacedNode) => a.y + 120 ≤ b.y)
        (clusterPoolPlaced g m (sortPools g) 50) :=
      List.chain'_iff_pairwise.mp hch
    exact hpw.imp (fun h => by omega)

/-- C4: compute-pool clusters appear top-to-bottom in non-increasing
order of their total (expanded) service count: the sorted pool sequence
is ordered by descending count with ties kept in input order, the layout
emits exactly that sequence of pool nodes, each carrying its total
service count, and along it the y coordinates strictly increase while
the counts never increase. -/
theorem pools_sorted_descending (g : GraphData) (m : CollapseMap) :
    List.Sorted (poolGE g) (sortPools g) ∧
    (∀ k : Nat, (sortPools g).filter (fun p => poolCount g p == k)
        = (poolNodesOf g).filter (fun p => poolCount g p == k)) ∧
    (((layoutNodesWithClusters g m).nodes).filter
        (fun n => decide (n.type = NType.computePool))).map (fun n => n.id)
      = (sortPools g).map (fun p => p.id) ∧
    (((layoutNodesWithClusters g m).nodes).filter
        (fun n => decide (n.type = NType.computePool))).map (fun n => n.serviceCount)
      = (sortPools g).map (fun p => some (poolCount g p)) ∧
    List.Chain' (fun a b => a.y < b.y ∧ b.serviceCount.getD 0 ≤ a.serviceCount.getD 0)
      (((layoutNodesWithClusters g m).nodes).filter
        (fun n => decide (n.type = NType.computePool))) := by
  rw [layout_filter_pool g m]
  exact ⟨sortPools_sorted g, sortPools_stable g,
    clusterPoolPlaced_map_id g m (sortPools g) 50,
    clusterPoolPlaced_map_count g m (sortPools g) 50,
    clusterPoolPlaced_chain_count g m (sortPools_sorted g)⟩

/-- C6 (amended): a collapsed pool's visible-service count is zero, but
its cluster height is floored at `Math.max(80, 0) = 80`, so the running
cursor advances past a collapsed pool by 80 plus the 40 inter-cluster
gap (120 total), not merely by the gap: a collapsed pool still occupies
a vertical cluster span of 80. -/
theorem collapsed_pool_floor_height (g : GraphData) (m : CollapseMap) (p : GraphNode)
    (hc : lookupCollapsed m p.id = true) :
    clusterHeight g m p = 80 ∧ clusterHeight g m p + 40 = 120 := by
  simp [clusterHeight, hc]

def gC6 : GraphData :=
  { nodes := [
      { id := "A", type := NType.computePool, data := { name := "A", computePool := "" } },
      { id := "S1", type := NType.service, data := { name := "S1", computePool := "A" } },
      { id := "B", type := NType.computePool, data := { name := "B", computePool := "" } } ],
    edges := [] }

def mC6 : CollapseMap := fun q => if q = "A" then some true else none

def pC6 : GraphNode :=
  { id := "A", type := NType.computePool, data := { name := "A", computePool := "" } }

/-- C6 counterexample: in `gC6` the pool `A` (one service) is collapsed,
yet its cluster height is 80, not 0, and the pool `B` placed after it
sits at y = 170 = 50 + 80 + 40 — had the collapsed pool contributed
zero height, the cursor would have reached B's cluster at 90. -/
theorem collapsed_pool_zero_height_cex :
    lookupCollapsed mC6 pC6.id = true ∧
    (servicesWithPool gC6 pC6.data.name).length = 1 ∧
    clusterHeight gC6 mC6 pC6 = 80 ∧ (80 : Int) ≠ 0 ∧
    (((layoutNodesWithClusters gC6 mC6).nodes.filter
        (fun n => decide (n.id = "B"))).map (fun n => n.y)) = [170] ∧
    (170 : Int) ≠ 50 + 0 + 40 := by
  refine ⟨by decide, by decide, by decide, by decide, by decide, by decide⟩

theorem collapsed_pool_floor_height_witness :
    lookupCollapsed mC6 pC6.id = true ∧
    (clusterHeight gC6 mC6 pC6 = 80 ∧ clusterHeight gC6 mC6 pC6 + 40 = 120) :=
  ⟨by decide, collapsed_pool_floor_height gC6 mC6 pC6 (by decide)⟩

theorem layout_hidden_eq (g : GraphData) (m : CollapseMap) :
    (layoutNodesWithClusters g m).hiddenServiceIds
      = (placeClusters g m (sortPools g) 50).2 := rfl

theorem svc_id_ne_pool_id {g : GraphData}
    (hids : (g.nodes.map (fun n => n.id)).Nodup)
    {q : GraphNode} (hq : q ∈ poolNodesOf g)
    {name : String} {s : GraphNode} (hs : s ∈ servicesWithPool g name) :
    s.id ≠ q.id := by
  intro h
  obtain ⟨hq1, hq2⟩ := mem_poolNodesOf.mp hq
  obtain ⟨hs1, hs2, _⟩ := mem_servicesWithPool.mp hs
  have := node_id_inj hids hs1 hq1 h
  rw [this, hq2] at hs2
  cases hs2

theorem svc_id_disjoint {g : GraphData}
    (hids : (g.nodes.map (fun n => n.id)).Nodup)
    {n₁ n₂ : String} (hne : n₁ ≠ n₂)
    {s : GraphNode} (hs : s ∈ servicesWithPool g n₁)
    {t : GraphNode} (ht : t ∈ servicesWithPool g n₂) :
    s.id ≠ t.id := by
  intro h
  obtain ⟨hs1, _, hs3⟩ := mem_servicesWithPool.mp hs
  obtain ⟨ht1, _, ht3⟩ := mem_servicesWithPool.mp ht
  have := node_id_inj hids hs1 ht1 h
  rw [this] at hs3
  exact hne (hs3.symm.trans ht3)

theorem hidden_toggle_iff (g : GraphData) (m : CollapseMap) (p : GraphNode)
    (hids : (g.nodes.map (fun n => n.id)).Nodup)
    (hp : p ∈ poolNodesOf g)
    (hexp : lookupCollapsed m p.id = false) (x : String) :
    (x ∈ (layoutNodesWithClusters g (togglePoolCollapse m p.id)).hiddenServiceIds ↔
      x ∈ (layoutNodesWithClusters g m).hiddenServiceIds ∨
        x ∈ (servicesWithPool g p.data.name).map (fun s => s.id)) := by
  rw [layout_hidden_eq, layout_hidden_eq, mem_placeClusters_snd, mem_placeClusters_snd]
  constructor
  · rintro ⟨q, hq, hcol, hx⟩
    by_cases hqp : q.id = p.id
    · have hqmem : q ∈ g.nodes := (mem_poolNodesOf.mp (mem_sortPools.mp hq)).1
      have hpm : p ∈ g.nodes := (mem_poolNodesOf.mp hp).1
      have : q = p := node_id_inj hids hqmem hpm hqp
      subst this
      exact Or.inr hx
    · rw [lookupCollapsed_toggle_other m _ _ hqp] at hcol
      exact Or.inl ⟨q, hq, hcol, hx⟩
  · rintro (⟨q, hq, hcol, hx⟩ | hx)
    · have hqp : q.id ≠ p.id := by
        intro h
        have hqmem : q ∈ g.nodes := (mem_poolNodesOf.mp (mem_sortPools.mp hq)).1
        have hpm : p ∈ g.nodes := (mem_poolNodesOf.mp hp).1
        have : q = p := node_id_inj hids hqmem hpm h
        subst this
        rw [hexp] at hcol
        cases hcol
      refine ⟨q, hq, ?_, hx⟩
      rw [lookupCollapsed_toggle_other m _ _ hqp]
      exact hcol
    · refine ⟨p, mem_sortPools.mpr hp, ?_, hx⟩
      rw [lookupCollapsed_toggle_self, hexp]
      rfl

theorem createEdges_toggle (g : GraphData) (m : CollapseMap) (p : GraphNode)
    (hids : (g.nodes.map (fun n => n.id)).Nodup)
    (hp : p ∈ poolNodesOf g)
    (hexp : lookupCollapsed m p.id = false) :
    createEdges g (layoutNodesWithClusters g (togglePoolCollapse m p.id)).hiddenServiceIds
      = (createEdges g (layoutNodesWithClusters g m).hiddenServiceIds).filter
          (fun e => !(((servicesWithPool g p.data.name).map (fun s => s.id)).contains e.source)
            && !(((servicesWithPool g p.data.name).map (fun s => s.id)).contains e.target)) := by
  unfold createEdges
  rw [List.filter_filter]
  apply List.filter_congr
  intro e _
  have hsrc := hidden_toggle_iff g m p hids hp hexp e.source
  have htgt := hidden_toggle_iff g m p hids hp hexp e.target
  rw [Bool.eq_iff_iff]
  simp only [Bool.and_eq_true, Bool.not_eq_true', ← Bool.not_eq_true]
  simp only [List.elem_iff] at hsrc htgt ⊢
  constructor
  · intro ⟨h1, h2⟩
    have n1 : ¬(e.source ∈ (layoutNodesWithClusters g m).hiddenServiceIds ∨
        e.source ∈ (servicesWithPool g p.data.name).map (fun s => s.id)) := by
      rw [← hsrc]; exact h1
    have n2 : ¬(e.target ∈ (layoutNodesWithClusters g m).hiddenServiceIds ∨
        e.target ∈ (servicesWithPool g p.data.name).map (fun s => s.id)) := by
      rw [← htgt]; exact h2
    push_neg at n1 n2
    exact ⟨⟨n1.2, n2.2⟩, n1.1, n2.1⟩
  · intro ⟨⟨h1, h2⟩, h3, h4⟩
    constructor
    · rw [hsrc]; rintro (h | h); exact h3 h; exact h1 h
    · rw [htgt]; rintro (h | h); exact h4 h; exact h2 h

theorem svc_filter_self_empty (svcIds : List String) :
    svcIds.filter (fun i => !(svcIds.contains i)) = [] := by
  rw [List.filter_eq_nil_iff]
  intro a ha
  simp [List.elem_iff, ha]

theorem clusterIds_toggle (g : GraphData) (m : CollapseMap) (p : GraphNode)
    (hids : (g.nodes.map (fun n => n.id)).Nodup)
    (hnames : ((poolNodesOf g).map (fun n => n.data.name)).Nodup)
    (hp : p ∈ poolNodesOf g)
    (hexp : lookupCollapsed m p.id = false) :
    ∀ ps : List GraphNode, (∀ q ∈ ps, q ∈ poolNodesOf g) →
      clusterIds g (togglePoolCollapse m p.id) ps
        = (clusterIds g m ps).filter
            (fun i => !(((servicesWithPool g p.data.name).map (fun s => s.id)).contains i)) := by
  intro ps
  induction ps with
  | nil => intro _; rfl
  | cons q rest ih =>
      intro hmem
      have hq : q ∈ poolNodesOf g := hmem q (List.mem_cons_self q rest)
      have hqid : ∀ i ∈ (servicesWithPool g p.data.name).map (fun s => s.id), q.id ≠ i := by
        intro i hi h
        obtain ⟨s, hs, hsi⟩ := List.mem_map.mp hi
        exact svc_id_ne_pool_id hids hq hs (by rw [hsi, ← h])
      have hqpass : (!(((servicesWithPool g p.data.name).map (fun s => s.id)).contains q.id))
          = true := by
        simp only [Bool.not_eq_true', ← Bool.not_eq_true]
        simp only [List.elem_iff]
        intro h
        exact hqid q.id h rfl
      have hrest := ih (fun r hr => hmem r (List.mem_cons_of_mem q hr))
      by_cases hqp : q.id = p.id
      · have hqmem : q ∈ g.nodes := (mem_poolNodesOf.mp hq).1
        have hpm : p ∈ g.nodes := (mem_poolNodesOf.mp hp).1
        have heq : q = p := node_id_inj hids hqmem hpm hqp
        subst heq
        have hcol : lookupCollapsed (togglePoolCollapse m q.id) q.id = true := by
          rw [lookupCollapsed_toggle_self, hexp]
          rfl
        simp only [clusterIds, hcol, if_pos, hexp, Bool.false_eq_true, if_false,
          List.filter_cons, hqpass, List.filter_append, List.nil_append,
          svc_filter_self_empty, hrest]
      · have hcol : lookupCollapsed (togglePoolCollapse m p.id) q.id = lookupCollapsed m q.id :=
          lookupCollapsed_toggle_other m _ _ hqp
        by_cases hc : lookupCollapsed m q.id
        · simp only [clusterIds, hcol, hc, if_pos, List.filter_cons, hqpass,
            List.filter_append, List.nil_append, hrest]
        · have hqname : q.data.name ≠ p.data.name := by
            intro h
            exact hqp (congrArg GraphNode.id (pool_name_inj hnames hq hp h))
          have hsvcq : ((servicesWithPool g q.data.name).map (fun s => s.id)).filter
              (fun i => !(((servicesWithPool g p.data.name).map (fun s => s.id)).contains i))
                = (servicesWithPool g q.data.name).map (fun s => s.id) := by
            rw [List.filter_eq_self]
            intro i hi
            obtain ⟨t, ht, hti⟩ := List.mem_map.mp hi
            simp only [Bool.not_eq_true', ← Bool.not_eq_true]
            simp only [List.elem_iff]
            intro hcon
            obtain ⟨s, hs, hsi⟩ := List.mem_map.mp hcon
            exact svc_id_disjoint hids (Ne.symm hqname) hs ht (by rw [hsi, hti])
          simp only [clusterIds, hcol, hc, Bool.false_eq_true, if_false, List.filter_cons,
            hqpass, List.filter_append, hsvcq, hrest]
          rw [if_pos trivial]

theorem columnIds_pass {g : GraphData}
    (hids : (g.nodes.map (fun n => n.id)).Nodup)
    {t : NType} (htne : t ≠ NType.service) {p : GraphNode} :
    ((g.nodes.filter (fun n => decide (n.type = t))).map (fun n => n.id)).filter
        (fun i => !(((servicesWithPool g p.data.name).map (fun s => s.id)).contains i))
      = (g.nodes.filter (fun n => decide (n.type = t))).map (fun n => n.id) := by
  rw [List.filter_eq_self]
  intro i hi
  obtain ⟨n, hn, hni⟩ := List.mem_map.mp hi
  have hn1 : n ∈ g.nodes := (List.mem_filter.mp hn).1
  have hn2 : n.type = t := of_decide_eq_true (List.mem_filter.mp hn).2
  simp only [Bool.not_eq_true', ← Bool.not_eq_true]
  simp only [List.elem_iff]
  intro hcon
  obtain ⟨s, hs, hsi⟩ := List.mem_map.mp hcon
  obtain ⟨hs1, hs2, _⟩ := mem_servicesWithPool.mp hs
  have : s = n := node_id_inj hids hs1 hn1 (by rw [hsi, hni])
  rw [this, hn2] at hs2
  exact htne hs2

theorem layout_map_id (g : GraphData) (m : CollapseMap) :
    ((layoutNodesWithClusters g m).nodes).map (fun n => n.id)
      = clusterIds g m (sortPools g)
        ++ (g.nodes.filter (fun n => decide (n.type = NType.notebook))).map (fun n => n.id)
        ++ (g.nodes.filter (fun n => decide (n.type = NType.eai))).map (fun n => n.id) := by
  simp only [layoutNodesWithClusters, List.map_append]
  rw [placeClusters_fst_map_id, columnNodes_map_id, columnNodes_map_id]

theorem layout_ids_toggle (g : GraphData) (m : CollapseMap) (p : GraphNode)
    (hids : (g.nodes.map (fun n => n.id)).Nodup)
    (hnames : ((poolNodesOf g).map (fun n => n.data.name)).Nodup)
    (hp : p ∈ poolNodesOf g)
    (hexp : lookupCollapsed m p.id = false) :
    ((layoutNodesWithClusters g (togglePoolCollapse m p.id)).nodes).map (fun n => n.id)
      = (((layoutNodesWithClusters g m).nodes).map (fun n => n.id)).filter
          (fun i => !(((servicesWithPool g p.data.name).map (fun s => s.id)).contains i)) := by
  rw [layout_map_id, layout_map_id, List.filter_append, List.filter_append]
  rw [clusterIds_toggle g m p hids hnames hp hexp (sortPools g)
    (fun q hq => mem_sortPools.mp hq)]
  rw [columnIds_pass hids (by intro h; cases h),
    columnIds_pass hids (by intro h; cases h)]

theorem svcIds_sub_clusterIds (g : GraphData) (m : CollapseMap) (p : GraphNode)
    (hexp : lookupCollapsed m p.id = false) :
    ∀ {ps : List GraphNode}, p ∈ ps →
      ∀ i ∈ (servicesWithPool g p.data.name).map (fun s => s.id), i ∈ clusterIds g m ps := by
  intro ps
  induction ps with
  | nil => intro h; cases h
  | cons q rest ih =>
      intro hmem i hi
      rcases List.mem_cons.mp hmem with h | h
      · subst h
        simp only [clusterIds, hexp, Bool.false_eq_true, if_false]
        exact List.mem_cons_of_mem _ (List.mem_append_left _ hi)
      · simp only [clusterIds]
        exact List.mem_cons_of_mem _ (List.mem_append_right _ (ih h i hi))

/-- C5: collapsing a compute pool with k services (k ≥ 1) removes
exactly those k service-node ids (and no others) from the rendered node
output and exactly the edges touching them from the rendered edge
output, while the graph data is untouched (the layout is a pure view of
it), and toggling the pool again restores the layout and edge output
exactly, without re-running assembly. -/
theorem collapse_is_view_filter (g : GraphData) (m : CollapseMap) (p : GraphNode)
    (hids : (g.nodes.map (fun n => n.id)).Nodup)
    (hnames : ((poolNodesOf g).map (fun n => n.data.name)).Nodup)
    (hp : p ∈ g.nodes) (hpt : p.type = NType.computePool)
    (_hk : 1 ≤ (servicesWithPool g p.data.name).length)
    (hexp : lookupCollapsed m p.id = false) :
    ((layoutNodesWithClusters g (togglePoolCollapse m p.id)).nodes).map (fun n => n.id)
        = (((layoutNodesWithClusters g m).nodes).map (fun n => n.id)).filter
            (fun i => !(((servicesWithPool g p.data.name).map (fun s => s.id)).contains i)) ∧
    (∀ i ∈ (servicesWithPool g p.data.name).map (fun s => s.id),
        i ∈ ((layoutNodesWithClusters g m).nodes).map (fun n => n.id)) ∧
    createEdges g (layoutNodesWithClusters g (togglePoolCollapse m p.id)).hiddenServiceIds
        = (createEdges g (layoutNodesWithClusters g m).hiddenServiceIds).filter
            (fun e => !(((servicesWithPool g p.data.name).map (fun s => s.id)).contains e.source)
              && !(((servicesWithPool g p.data.name).map (fun s => s.id)).contains e.target)) ∧
    layoutNodesWithClusters g
        (togglePoolCollapse (togglePoolCollapse m p.id) p.id) = layoutNodesWithClusters g m ∧
    createEdges g (layoutNodesWithClusters g
        (togglePoolCollapse (togglePoolCollapse m p.id) p.id)).hiddenServiceIds
      = createEdges g (layoutNodesWithClusters g m).hiddenServiceIds := by
  have hpn : p ∈ poolNodesOf g := mem_poolNodesOf.mpr ⟨hp, hpt⟩
  have hrestore := layout_congr g _ m (lookupCollapsed_toggle_toggle m p.id)
  refine ⟨layout_ids_toggle g m p hids hnames hpn hexp, ?_,
    createEdges_toggle g m p hids hpn hexp, hrestore, by rw [hrestore]⟩
  intro i hi
  rw [layout_map_id]
  exact List.mem_append_left _ (List.mem_append_left _
    (svcIds_sub_clusterIds g m p hexp (mem_sortPools.mpr hpn) i hi))

def gC5 : GraphData :=
  { nodes := [
      { id := "P1", type := NType.computePool, data := { name := "P1", computePool := "" } },
      { id := "D.S.SVC", type := NType.service, data := { name := "SVC", computePool := "P1" } },
      { id := "NB", type := NType.notebook, data := { name := "NB", computePool := "" } } ],
    edges := [ { id := "e1", source := "D.S.SVC", target := "P1", label := some "runs on" } ] }

def pC5 : GraphNode :=
  { id := "P1", type := NType.computePool, data := { name := "P1", computePool := "" } }

theorem collapse_is_view_filter_witness :
    (gC5.nodes.map (fun n => n.id)).Nodup ∧
    ((poolNodesOf gC5).map (fun n => n.data.name)).Nodup ∧
    pC5 ∈ gC5.nodes ∧ pC5.type = NType.computePool ∧
    1 ≤ (servicesWithPool gC5 pC5.data.name).length ∧
    lookupCollapsed initialCollapseMap pC5.id = false ∧
    (((layoutNodesWithClusters gC5 (togglePoolCollapse initialCollapseMap pC5.id)).nodes).map
          (fun n => n.id)
        = (((layoutNodesWithClusters gC5 initialCollapseMap).nodes).map (fun n => n.id)).filter
            (fun i => !(((servicesWithPool gC5 pC5.data.name).map (fun s => s.id)).contains i)) ∧
      (∀ i ∈ (servicesWithPool gC5 pC5.data.name).map (fun s => s.id),
          i ∈ ((layoutNodesWithClusters gC5 initialCollapseMap).nodes).map (fun n => n.id)) ∧
      createEdges gC5 (layoutNodesWithClusters gC5
            (togglePoolCollapse initialCollapseMap pC5.id)).hiddenServiceIds
          = (createEdges gC5
              (layoutNodesWithClusters gC5 initialCollapseMap).hiddenServiceIds).filter
              (fun e =>
                !(((servicesWithPool gC5 pC5.data.name).map (fun s => s.id)).contains e.source)
                && !(((servicesWithPool gC5 pC5.data.name).map (fun s => s.id)).contains e.target)) ∧
      layoutNodesWithClusters gC5
          (togglePoolCollapse (togglePoolCollapse initialCollapseMap pC5.id) pC5.id)
        = layoutNodesWithClusters gC5 initialCollapseMap ∧
      createEdges gC5 (layoutNodesWithClusters gC5
          (togglePoolCollapse (togglePoolCollapse initialCollapseMap pC5.id) pC5.id)).hiddenServiceIds
        = createEdges gC5
            (layoutNodesWithClusters gC5 initialCollapseMap).hiddenServiceIds) :=
  ⟨by decide, by decide, by decide, by decide, by decide, rfl,
    collapse_is_view_filter gC5 initialCollapseMap pC5 (by decide) (by decide) (by decide)
      (by decide) (by decide) rfl⟩

theorem layout_nodes_mem_cases {g : GraphData} {m : CollapseMap} {pn : PlacedNode}
    (h : pn ∈ (layoutNodesWithClusters g m).nodes) :
    (∃ q ∈ sortPools g, pn.id = q.id ∧ pn.type = q.type) ∨
    (∃ q ∈ sortPools g, ∃ t ∈ servicesWithPool g q.data.name, pn.id = t.id ∧ pn.type = t.type) ∨
    (∃ n ∈ g.nodes.filter (fun n => decide (n.type = NType.notebook)),
        pn.id = n.id ∧ pn.type = n.type) ∨
    (∃ n ∈ g.nodes.filter (fun n => decide (n.type = NType.eai)),
        pn.id = n.id ∧ pn.type = n.type) := by
  simp only [layoutNodesWithClusters, List.mem_append] at h
  rcases h with (h | h) | h
  · rcases mem_placeClusters_fst h with h | h
    · exact Or.inl h
    · exact Or.inr (Or.inl h)
  · exact Or.inr (Or.inr (Or.inl (mem_columnNodes h)))
  · exact Or.inr (Or.inr (Or.inr (mem_columnNodes h)))

/-- C9 (amended): a service whose compute-pool attribute matches no
compute-pool node's name (the empty string included) is not positioned
by the layout — no output node carries its id — yet its id is never
added to the hidden-service set, so every edge referencing it whose
other endpoint is not itself a hidden service still passes the
rendered-edge filter while its endpoint node is absent from the
rendered output. -/
theorem orphan_service_not_laid_out (g : GraphData) (m : CollapseMap) (s : GraphNode)
    (hids : (g.nodes.map (fun n => n.id)).Nodup)
    (hs : s ∈ g.nodes) (hst : s.type = NType.service)
    (horph : s.data.computePool ∉ (poolNodesOf g).map (fun p => p.data.name)) :
    (∀ pn ∈ (layoutNodesWithClusters g m).nodes, pn.id ≠ s.id) ∧
    s.id ∉ (layoutNodesWithClusters g m).hiddenServiceIds ∧
    (∀ e ∈ g.edges,
      (e.source = s.id → e.target ∉ (layoutNodesWithClusters g m).hiddenServiceIds →
        e ∈ createEdges g (layoutNodesWithClusters g m).hiddenServiceIds) ∧
      (e.target = s.id → e.source ∉ (layoutNodesWithClusters g m).hiddenServiceIds →
        e ∈ createEdges g (layoutNodesWithClusters g m).hiddenServiceIds)) := by
  have hname : ∀ q ∈ sortPools g, s.data.computePool ≠ q.data.name := by
    intro q hq h
    exact horph (List.mem_map.mpr ⟨q, mem_sortPools.mp hq, h.symm⟩)
  have hnotin : ∀ q ∈ sortPools g, ∀ t ∈ servicesWithPool g q.data.name, t.id ≠ s.id := by
    intro q hq t ht h
    obtain ⟨ht1, _, ht3⟩ := mem_servicesWithPool.mp ht
    have : t = s := node_id_inj hids ht1 hs h
    subst this
    exact hname q hq ht3
  have hb : s.id ∉ (layoutNodesWithClusters g m).hiddenServiceIds := by
    rw [layout_hidden_eq]
    intro h
    obtain ⟨q, hq, _, hx⟩ := mem_placeClusters_snd.mp h
    obtain ⟨t, ht, hti⟩ := List.mem_map.mp hx
    exact hnotin q hq t ht hti
  refine ⟨?_, hb, ?_⟩
  · intro pn hpn h
    rcases layout_nodes_mem_cases hpn with ⟨q, hq, h1, h2⟩ | ⟨q, hq, t, ht, h1, h2⟩ |
      ⟨n, hn, h1, h2⟩ | ⟨n, hn, h1, h2⟩
    · have hq2 := (mem_poolNodesOf.mp (mem_sortPools.mp hq)).2
      have : q = s :=
        node_id_inj hids (mem_poolNodesOf.mp (mem_sortPools.mp hq)).1 hs (h1.symm.trans h)
      rw [this, hst] at hq2
      cases hq2
    · exact hnotin q hq t ht (h1.symm.trans h)
    · have hn2 : n.type = NType.notebook := of_decide_eq_true (List.mem_filter.mp hn).2
      have : n = s := node_id_inj hids (List.mem_filter.mp hn).1 hs (h1.symm.trans h)
      rw [this, hst] at hn2
      cases hn2
    · have hn2 : n.type = NType.eai := of_decide_eq_true (List.mem_filter.mp hn).2
      have : n = s := node_id_inj hids (List.mem_filter.mp hn).1 hs (h1.symm.trans h)
      rw [this, hst] at hn2
      cases hn2
  · intro e he
    constructor
    · intro hsrc htgt
      refine List.mem_filter.mpr ⟨he, ?_⟩
      have h1 : ((layoutNodesWithClusters g m).hiddenServiceIds).contains e.source = false := by
        rw [← Bool.not_eq_true]
        simp only [List.elem_iff]
        rw [hsrc]
        exact hb
      have h2 : ((layoutNodesWithClusters g m).hiddenServiceIds).contains e.target = false := by
        rw [← Bool.not_eq_true]
        simp only [List.elem_iff]
        exact htgt
      rw [h1, h2]
      rfl
    · intro htgt hsrc
      refine List.mem_filter.mpr ⟨he, ?_⟩
      have h1 : ((layoutNodesWithClusters g m).hiddenServiceIds).contains e.source = false := by
        rw [← Bool.not_eq_true]
        simp only [List.elem_iff]
        exact hsrc
      have h2 : ((layoutNodesWithClusters g m).hiddenServiceIds).contains e.target = false := by
        rw [← Bool.not_eq_true]
        simp only [List.elem_iff]
        rw [htgt]
        exact hb
      rw [h1, h2]
      rfl

def gC9 : GraphData :=
  { nodes := [
      { id := "O", type := NType.service, data := { name := "O", computePool := "NOPE" } },
      { id := "P", type := NType.computePool, data := { name := "P", computePool := "" } },
      { id := "S", type := NType.service, data := { name := "S", computePool := "P" } } ],
    edges := [ { id := "E", source := "O", target := "S", label := some "uses" } ] }

def mC9 : CollapseMap := fun q => if q = "P" then some true else none

def oC9 : GraphNode :=
  { id := "O", type := NType.service, data := { name := "O", computePool := "NOPE" } }

def eC9 : GraphEdge := { id := "E", source := "O", target := "S", label := some "uses" }

/-- C9 counterexample: in `gC9` the orphan service `O` (compute pool
`"NOPE"`, matching no pool node) has an edge to the service `S` of the
collapsed pool `P`; that edge references the orphan yet is filtered out
of the rendered edge set, so "every edge referencing it still passes
the rendered-edge filter" fails as stated. -/
theorem orphan_edge_filtered_cex :
    oC9 ∈ gC9.nodes ∧ oC9.type = NType.service ∧
    oC9.data.computePool ∉ (poolNodesOf gC9).map (fun p => p.data.name) ∧
    eC9 ∈ gC9.edges ∧ eC9.source = oC9.id ∧
    eC9 ∉ createEdges gC9 (layoutNodesWithClusters gC9 mC9).hiddenServiceIds := by
  refine ⟨by decide, by decide, by decide, by decide, by decide, by decide⟩

theorem orphan_service_not_laid_out_witness :
    (gC9.nodes.map (fun n => n.id)).Nodup ∧ oC9 ∈ gC9.nodes ∧ oC9.type = NType.service ∧
    oC9.data.computePool ∉ (poolNodesOf gC9).map (fun p => p.data.name) ∧
    ((∀ pn ∈ (layoutNodesWithClusters gC9 mC9).nodes, pn.id ≠ oC9.id) ∧
      oC9.id ∉ (layoutNodesWithClusters gC9 mC9).hiddenServiceIds ∧
      (∀ e ∈ gC9.edges,
        (e.source = oC9.id → e.target ∉ (layoutNodesWithClusters gC9 mC9).hiddenServiceIds →
          e ∈ createEdges gC9 (layoutNodesWithClusters gC9 mC9).hiddenServiceIds) ∧
        (e.target = oC9.id → e.source ∉ (layoutNodesWithClusters gC9 mC9).hiddenServiceIds →
          e ∈ createEdges gC9 (layoutNodesWithClusters gC9 mC9).hiddenServiceIds))) :=
  ⟨by decide, by decide, by decide, by decide,
    orphan_service_not_laid_out gC9 mC9 oC9 (by decide) (by decide) (by decide) (by decide)⟩

/-- C1: every edge in the emitted (validated) graph has both its source
id and its target id present in the emitted node set, for every input
candidate node set and candidate edge set. -/
theorem validator_soundness (nodes : List GraphNode) (cands : List GraphEdge) (e : GraphEdge)
    (he : e ∈ (buildGraph nodes cands).edges) :
    e.source ∈ (buildGraph nodes cands).nodes.map (fun n => n.id) ∧
    e.target ∈ (buildGraph nodes cands).nodes.map (fun n => n.id) := by
  have h := (List.mem_filter.mp he).2
  rw [Bool.and_eq_true] at h
  constructor
  · exact List.elem_iff.mp h.1
  · exact List.elem_iff.mp h.2

def nodesC1 : List GraphNode :=
  [ { id := "P1", type := NType.computePool, data := { name := "P1", computePool := "" } },
    { id := "D.S.SVC", type := NType.service, data := { name := "SVC", computePool := "P1" } } ]

def candsC1 : List GraphEdge :=
  [ { id := "e1", source := "D.S.SVC", target := "P1", label := some "runs on" },
    { id := "e2", source := "D.S.SVC", target := "GHOST", label := some "uses" } ]

def eC1 : GraphEdge := { id := "e1", source := "D.S.SVC", target := "P1", label := some "runs on" }

theorem validator_soundness_witness :
    eC1 ∈ (buildGraph nodesC1 candsC1).edges ∧
    (eC1.source ∈ (buildGraph nodesC1 candsC1).nodes.map (fun n => n.id) ∧
      eC1.target ∈ (buildGraph nodesC1 candsC1).nodes.map (fun n => n.id)) :=
  ⟨by decide, validator_soundness nodesC1 candsC1 eC1 (by decide)⟩

theorem rkeys_map_replace (m : List RSvc) (s : RSvc) :
    rkeys (m.map (fun t => if t.key = s.key then s else t)) = rkeys m := by
  induction m with
  | nil => rfl
  | cons t ts ih =>
      simp only [List.map_cons, rkeys, List.map]
      by_cases h : t.key = s.key
      · rw [if_pos h]
        simp only [rkeys] at ih
        rw [h, ih]
      · rw [if_neg h]
        simp only [rkeys] at ih
        rw [ih]

theorem rlookup_map_replace_other (m : List RSvc) (s : RSvc) (k : String) (hk : s.key ≠ k) :
    rlookup k (m.map (fun t => if t.key = s.key then s else t)) = rlookup k m := by
  induction m with
  | nil => rfl
  | cons t ts ih =>
      simp only [List.map_cons, rlookup, List.find?]
      by_cases h : t.key = s.key
      · rw [if_pos h]
        have h1 : (s.key == k) = false := by
          rw [← Bool.not_eq_true, beq_iff_eq]
          exact hk
        have h2 : (t.key == k) = false := by
          rw [← Bool.not_eq_true, beq_iff_eq, h]
          exact hk
        rw [h1, h2]
        simpa [rlookup] using ih
      · rw [if_neg h]
        cases hc : (t.key == k) with
        | true => rfl
        | false => simpa [rlookup] using ih

theorem rlookup_map_replace_self (m : List RSvc) (s : RSvc)
    (hmem : ∃ t ∈ m, t.key = s.key) :
    rlookup s.key (m.map (fun t => if t.key = s.key then s else t)) = some s := by
  induction m with
  | nil =>
      obtain ⟨t, ht, _⟩ := hmem
      cases ht
  | cons t ts ih =>
      simp only [List.map_cons, rlookup, List.find?]
      by_cases h : t.key = s.key
      · rw [if_pos h]
        simp
      · rw [if_neg h]
        have h2 : (t.key == s.key) = false := by
          rw [← Bool.not_eq_true, beq_iff_eq]
          exact h
        rw [h2]
        obtain ⟨u, hu, huk⟩ := hmem
        rcases List.mem_cons.mp hu with hu | hu
        · subst hu
          exact absurd huk h
        · simpa [rlookup] using ih ⟨u, hu, huk⟩

theorem upsert_rlookup (m : List RSvc) (s : RSvc) (k : String) :
    rlookup k (upsert m s) = if s.key = k then some s else rlookup k m := by
  unfold upsert
  by_cases h : m.any (fun t => t.key == s.key)
  · rw [if_pos h]
    obtain ⟨t, ht, htk⟩ := List.any_eq_true.mp h
    have htk2 : t.key = s.key := beq_iff_eq.mp htk
    by_cases hk : s.key = k
    · subst hk
      rw [if_pos rfl]
      exact rlookup_map_replace_self m s ⟨t, ht, htk2⟩
    · rw [if_neg hk]
      exact rlookup_map_replace_other m s k hk
  · rw [if_neg h]
    by_cases hk : s.key = k
    · subst hk
      have hnone : rlookup s.key m = none := by
        rw [rlookup, List.find?_eq_none]
        intro t ht htk
        exact h (List.any_eq_true.mpr ⟨t, ht, htk⟩)
      rw [if_pos rfl, rlookup, List.find?_append]
      rw [rlookup] at hnone
      rw [hnone]
      simp [List.find?]
    · rw [if_neg hk, rlookup, List.find?_append]
      have hsk : (s.key == k) = false := by
        rw [← Bool.not_eq_true, beq_iff_eq]
        exact hk
      simp only [List.find?, hsk]
      rw [Option.or_none]
      rfl

theorem upsert_rkeys (m : List RSvc) (s : RSvc) :
    rkeys (upsert m s) = if s.key ∈ rkeys m then rkeys m else rkeys m ++ [s.key] := by
  unfold upsert
  by_cases h : m.any (fun t => t.key == s.key)
  · obtain ⟨t, ht, htk⟩ := List.any_eq_true.mp h
    have hmem : s.key ∈ rkeys m :=
      List.mem_map.mpr ⟨t, ht, (beq_iff_eq.mp htk)⟩
    rw [if_pos h, if_pos hmem, rkeys_map_replace]
  · have hmem : s.key ∉ rkeys m := by
      intro hc
      obtain ⟨t, ht, htk⟩ := List.mem_map.mp hc
      exact h (List.any_eq_true.mpr ⟨t, ht, beq_iff_eq.mpr htk⟩)
    rw [if_neg h, if_neg hmem]
    simp [rkeys]

theorem upsert_nodup (m : List RSvc) (s : RSvc) (h : (rkeys m).Nodup) :
    (rkeys (upsert m s)).Nodup := by
  rw [upsert_rkeys]
  by_cases hmem : s.key ∈ rkeys m
  · rw [if_pos hmem]
    exact h
  · rw [if_neg hmem, ← List.concat_eq_append]
    exact List.Nodup.concat hmem h

theorem mem_upsert_rkeys (m : List RSvc) (s : RSvc) (k : String) :
    k ∈ rkeys (upsert m s) ↔ k ∈ rkeys m ∨ k = s.key := by
  rw [upsert_rkeys]
  by_cases hmem : s.key ∈ rkeys m
  · rw [if_pos hmem]
    constructor
    · exact Or.inl
    · rintro (h | h)
      · exact h
      · rw [h]; exact hmem
  · rw [if_neg hmem]
    simp [List.mem_append]

theorem lastWithKey_acc (k : String) :
    ∀ (l : List RSvc) (a : Option RSvc),
      l.foldl (fun acc s => if s.key = k then some s else acc) a
        = match l.foldl (fun acc s => if s.key = k then some s else acc) none with
          | some v => some v
          | none => a := by
  intro l
  induction l with
  | nil => intro a; rfl
  | cons u t ih =>
      intro a
      simp only [List.foldl_cons]
      rw [ih (if u.key = k then some u else a), ih (if u.key = k then some u else none)]
      cases ht : t.foldl (fun acc s => if s.key = k then some s else acc) none with
      | some v => rfl
      | none =>
          by_cases hu : u.key = k
          · rw [if_pos hu, if_pos hu]
          · rw [if_neg hu, if_neg hu]

theorem foldl_upsert_rlookup (k : String) :
    ∀ (l : List RSvc) (m : List RSvc),
      rlookup k (l.foldl upsert m)
        = match lastWithKey k l with
          | some v => some v
          | none => rlookup k m := by
  intro l
  induction l with
  | nil => intro m; rfl
  | cons s t ih =>
      intro m
      simp only [List.foldl_cons]
      rw [ih (upsert m s)]
      have hlast : lastWithKey k (s :: t)
          = match lastWithKey k t with
            | some v => some v
            | none => if s.key = k then some s else none := by
        simp only [lastWithKey, List.foldl_cons]
        exact lastWithKey_acc k t (if s.key = k then some s else none)
      rw [hlast, upsert_rlookup]
      cases ht : lastWithKey k t with
      | some v => rfl
      | none =>
          by_cases hs : s.key = k
          · rw [if_pos hs, if_pos hs]
          · rw [if_neg hs, if_neg hs]

theorem foldl_upsert_mem_rkeys (k : String) :
    ∀ (l : List RSvc) (m : List RSvc),
      k ∈ rkeys (l.foldl upsert m) ↔ k ∈ rkeys m ∨ ∃ s ∈ l, s.key = k := by
  intro l
  induction l with
  | nil => intro m; simp
  | cons s t ih =>
      intro m
      simp only [List.foldl_cons]
      rw [ih (upsert m s), mem_upsert_rkeys]
      constructor
      · rintro ((h | h) | h)
        · exact Or.inl h
        · exact Or.inr ⟨s, List.mem_cons_self s t, h.symm⟩
        · obtain ⟨u, hu, huk⟩ := h
          exact Or.inr ⟨u, List.mem_cons_of_mem s hu, huk⟩
      · rintro (h | ⟨u, hu, huk⟩)
        · exact Or.inl (Or.inl h)
        · rcases List.mem_cons.mp hu with hu | hu
          · subst hu
            exact Or.inl (Or.inr huk.symm)
          · exact Or.inr ⟨u, hu, huk⟩

theorem foldl_upsert_nodup :
    ∀ (l : List RSvc) (m : List RSvc), (rkeys m).Nodup → (rkeys (l.foldl upsert m)).Nodup := by
  intro l
  induction l with
  | nil => intro m h; exact h
  | cons s t ih =>
      intro m h
      simp only [List.foldl_cons]
      exact ih (upsert m s) (upsert_nodup m s h)

theorem reconcile_eq_flatten (baseline : List RSvc) (poolLists : List (List RSvc)) :
    reconcile baseline poolLists
      = poolLists.flatten.foldl upsert (baseline.foldl upsert []) := by
  unfold reconcile
  generalize baseline.foldl upsert [] = m
  induction poolLists generalizing m with
  | nil => rfl
  | cons P Qs ih =>
      simp only [List.foldl_cons, List.flatten_cons, List.foldl_append]
      exact ih (P.foldl upsert m)

/-- C3: for any baseline service list B and pool-scoped lists P1..Pn,
the reconciled set has exactly one entry per distinct fully qualified
service name (keys without duplicates, covering exactly the names of B
and the pool lists), and for every name supplied by some pool list the
retained entry is the one from the last pool list that supplied it —
never an entry only present in B. -/
theorem reconciler_dedup_override (baseline : List RSvc) (poolLists : List (List RSvc)) :
    (rkeys (reconcile baseline poolLists)).Nodup ∧
    (∀ k, k ∈ rkeys (reconcile baseline poolLists) ↔
      (∃ s ∈ baseline, s.key = k) ∨ ∃ P ∈ poolLists, ∃ s ∈ P, s.key = k) ∧
    (∀ k v, lastSupplied k poolLists = some v →
      rlookup k (reconcile baseline poolLists) = some v) := by
  rw [reconcile_eq_flatten]
  refine ⟨?_, ?_, ?_⟩
  · exact foldl_upsert_nodup _ _ (foldl_upsert_nodup baseline [] List.nodup_nil)
  · intro k
    rw [foldl_upsert_mem_rkeys, foldl_upsert_mem_rkeys]
    have h1 : (k ∈ rkeys ([] : List RSvc)) ↔ False := by simp [rkeys]
    have h2 : (∃ s ∈ poolLists.flatten, s.key = k) ↔ ∃ P ∈ poolLists, ∃ s ∈ P, s.key = k := by
      constructor
      · rintro ⟨s, hs, hk⟩
        obtain ⟨P, hP, hsP⟩ := List.mem_flatten.mp hs
        exact ⟨P, hP, s, hsP, hk⟩
      · rintro ⟨P, hP, s, hsP, hk⟩
        exact ⟨s, List.mem_flatten.mpr ⟨P, hP, hsP⟩, hk⟩
    rw [h1, h2, false_or]
  · intro k v hv
    rw [foldl_upsert_rlookup]
    unfold lastSupplied at hv
    rw [hv]

def bC3 : List RSvc := [ { key := "A.B.S1", pool := "" } ]

def psC3 : List (List RSvc) := [ [ { key := "A.B.S1", pool := "POOL1" } ] ]

theorem reconciler_dedup_override_witness :
    lastSupplied "A.B.S1" psC3 = some { key := "A.B.S1", pool := "POOL1" } ∧
    rlookup "A.B.S1" (reconcile bC3 psC3) = some { key := "A.B.S1", pool := "POOL1" } :=
  ⟨by decide,
    (reconciler_dedup_override bC3 psC3).2.2 "A.B.S1" { key := "A.B.S1", pool := "POOL1" }
      (by decide)⟩
